import Mathlib

/-!
Shallow embedding of the incremental synchronization and resumable
batch-indexing engine of the repository (confluence_crawler.py,
sync_state.py, preprocess_data.py, build_vectordb.py, update_vectordb.py,
weekly_update.py), together with proofs about the embedded operations.

Conventions: JSON dictionaries become association lists, machine files
become `Option` values (absent/corrupt = `none`), the external chunker
(RecursiveCharacterTextSplitter) is an abstract parameter
`splitter : String → List String`, and the Chroma collection is a list of
(id, chunk) pairs with upsert-by-id semantics.
-/

/-- A raw page record as found in `confluence_backup.json` (produced by the
crawler; consumed by `identify_changes` and `split_into_chunks`).
Source: confluence_crawler.py `extract_page_metadata` / `crawl_page`. -/
structure SrcPage where
  page_id : String
  title : String
  url : String
  version : Nat
  last_modified : String
  content : String
deriving DecidableEq, Repr

/-- A per-document entry of the `pages` map in `last_sync.json`.
Source: confluence_crawler.py `update_sync_state` (the stored dict). -/
structure TrackedPage where
  title : String
  url : String
  version : Nat
  last_modified : String
  last_crawled : String
deriving DecidableEq, Repr

/-- The change set computed by `identify_changes` (update_vectordb.py). -/
structure ChangeSet where
  added : List SrcPage
  modified : List SrcPage
  deleted : List String
deriving DecidableEq, Repr

/-- Dictionary lookup in the sync state's `pages` map (`synced_pages[page_id]`,
guarded by `page_id not in synced_page_ids`). -/
def lookupTracked (sp : List (String × TrackedPage)) (k : String) : Option TrackedPage :=
  List.lookup k sp

/-- The modified-test of update_vectordb.py `identify_changes` (lines 118-119):
`(current_version > 0 and prev_version > 0 and current_version != prev_version)
 or (current_modified and prev_modified and current_modified != prev_modified)`.
Note this is a plain disjunction: there is no precedence of the version
signal over `last_modified`. -/
def pageModifiedCond (page : SrcPage) (prev : TrackedPage) : Bool :=
  (decide (0 < page.version) && decide (0 < prev.version)
      && decide (page.version ≠ prev.version))
  || (decide (page.last_modified ≠ "") && decide (prev.last_modified ≠ "")
      && decide (page.last_modified ≠ prev.last_modified))

/-- One iteration of the add/modify classification loop of
`identify_changes`: skip pages with empty id, bucket unseen ids as added,
bucket `pageModifiedCond` hits as modified. -/
def classifyStep (sp : List (String × TrackedPage)) (ch : ChangeSet) (page : SrcPage) :
    ChangeSet :=
  if page.page_id = "" then ch
  else
    match lookupTracked sp page.page_id with
    | none => { ch with added := ch.added ++ [page] }
    | some prev =>
        if pageModifiedCond page prev then { ch with modified := ch.modified ++ [page] }
        else ch

/-- update_vectordb.py `identify_changes`: diff the fetched snapshot
(`backup_pages`) against the sync state's `pages` map; deleted = tracked ids
absent from the snapshot's id set. -/
def identify_changes (bp : List SrcPage) (sp : List (String × TrackedPage)) : ChangeSet :=
  let backup_ids := bp.map (fun p => p.page_id)
  let ch := bp.foldl (classifyStep sp) ⟨[], [], []⟩
  { ch with deleted := (sp.map (fun e => e.1)).filter (fun pid => !(backup_ids.contains pid)) }

/-- Boolean form of "this page lands in the added bucket". -/
def addedPred (sp : List (String × TrackedPage)) (p : SrcPage) : Bool :=
  !(p.page_id == "") && (lookupTracked sp p.page_id).isNone

/-- Boolean form of "this page lands in the modified bucket". -/
def modifiedPred (sp : List (String × TrackedPage)) (p : SrcPage) : Bool :=
  !(p.page_id == "") &&
    (match lookupTracked sp p.page_id with
     | none => false
     | some prev => pageModifiedCond p prev)

/-- A chunk in `processed_chunks.json`: text plus the metadata attached by
preprocess_data.py `add_metadata`. -/
structure Chunk where
  content : String
  page_id : String
  title : String
  url : String
  chunk_index : Nat
  total_chunks : Nat
deriving DecidableEq, Repr

/-- The Chroma collection: entries (vector id, stored chunk); `count()` is the
list length. Ids are unique in a real collection (hypothesised where needed). -/
abbrev Store : Type := List (String × Chunk)

/-- Chroma `collection.upsert` for a single id: replace the entry with this id
if present, else append. -/
def upsert (store : Store) (id : String) (c : Chunk) : Store :=
  if store.any (fun e => e.1 == id) then
    store.map (fun e => if e.1 == id then (id, c) else e)
  else store ++ [(id, c)]

/-- The deterministic vector id `f"{page_id}_chunk_{chunk_index}"` used by both
build_vectordb.py and update_vectordb.py. -/
def chunkId (c : Chunk) : String :=
  c.page_id ++ "_chunk_" ++ toString c.chunk_index

/-- Upsert a list of chunks, in order, each under its deterministic id
(one `collection.upsert(ids, ...)` call, entry by entry). -/
def upsertChunks (store : Store) (cs : List Chunk) : Store :=
  cs.foldl (fun s c => upsert s (chunkId c) c) store

/-- Python `not content.strip()`: the content is empty or whitespace only. -/
def isBlank (s : String) : Bool :=
  s.toList.all Char.isWhitespace

/-- preprocess_data.py `add_metadata`: attach page metadata, a 0-based
`chunk_index` and the constant `total_chunks` to each split text. -/
def add_metadata (chunks : List String) (page_id title url : String) : List Chunk :=
  let total_chunks := chunks.length
  chunks.enum.map (fun ic => ⟨ic.2, page_id, title, url, ic.1, total_chunks⟩)

/-- preprocess_data.py `split_into_chunks`: per page, skip blank content,
otherwise split via the (external) text splitter and attach metadata,
accumulating all chunks in page order. -/
def split_into_chunks (splitter : String → List String) (pages : List SrcPage) :
    List Chunk :=
  pages.foldl
    (fun acc page =>
      if isBlank page.content then acc
      else acc ++ add_metadata (splitter page.content) page.page_id page.title page.url)
    []

/-- build_vectordb.py `_load_progress`: the checkpoint file's
`last_completed_batch` value, 0 when the file is absent or unreadable. -/
def loadProgress : Option Nat → Nat
  | none => 0
  | some k => k

/-- In-run state of the batch loop of build_vectordb.py `build_vectordb`:
the collection, the checkpoint file (`none` = absent), and the chunks this
run has embedded so far. -/
structure IndexerState where
  store : Store
  checkpoint : Option Nat
  embedded : List Chunk
deriving DecidableEq

/-- One successful iteration of the batch loop (build_vectordb.py lines
192-221): slice the batch, embed it, upsert it, then `_save_progress`
with `actual_batch_num + 1`. -/
def doBatch (bs : Nat) (chunks : List Chunk) (start_batch start_index : Nat)
    (i : Nat) (st : IndexerState) : IndexerState :=
  let batch := (chunks.drop (start_index + i * bs)).take bs
  { store := upsertChunks st.store batch,
    checkpoint := some (start_batch + i + 1),
    embedded := st.embedded ++ batch }

/-- The batch loop with an injected fault: `fault = some j` means a
non-resource-exhaustion exception is raised while processing the j-th batch
of this run (counted from the resume point), before any of its effects; the
`Bool` result is whether the loop ran to completion. -/
def runLoop (bs : Nat) (chunks : List Chunk) (sb si : Nat) (fault : Option Nat) :
    Nat → Nat → IndexerState → IndexerState × Bool
  | 0, _, st => (st, true)
  | n + 1, i, st =>
    if fault = some i then (st, false)
    else runLoop bs chunks sb si fault n (i + 1) (doBatch bs chunks sb si i st)

/-- How a `build_vectordb` invocation ends: early return on an empty chunk
list, normal completion, or an aborting exception. -/
inductive IndexOutcome
  | emptyInput
  | completed
  | aborted
deriving DecidableEq, Repr

/-- The number of batches a run starting from checkpoint `cp` will process:
`(len(chunks) - start_index + batch_size - 1) // batch_size`. -/
def totalBatches (bs : Nat) (chunks : List Chunk) (cp : Option Nat) : Nat :=
  (chunks.length - loadProgress cp * bs + bs - 1) / bs

/-- build_vectordb.py `build_vectordb` (rebuild=False path): early return on
empty input, resume from the checkpoint, run the batch loop, and on normal
completion `_clear_progress` (checkpoint := none). -/
def build_vectordb (bs : Nat) (chunks : List Chunk) (cp : Option Nat)
    (store : Store) (fault : Option Nat) : IndexerState × IndexOutcome :=
  if chunks.isEmpty then (⟨store, cp, []⟩, .emptyInput)
  else
    let sb := loadProgress cp
    let si := sb * bs
    let tb := (chunks.length - si + bs - 1) / bs
    match runLoop bs chunks sb si fault tb 0 ⟨store, cp, []⟩ with
    | (st, true) => ({ st with checkpoint := none }, .completed)
    | (st, false) => (st, .aborted)

/-- One iteration of update_vectordb.py `delete_old_vectors` (lines 152-160):
`collection.get(where page_id == pid)` collects the matching entries' ids;
if any, `collection.delete(ids)` removes them and the count grows. -/
def deleteStep (acc : Store × Nat) (pid : String) : Store × Nat :=
  let ids := (acc.1.filter (fun e => e.2.page_id == pid)).map (fun e => e.1)
  if ids.isEmpty then acc
  else (acc.1.filter (fun e => !(ids.contains e.1)), acc.2 + ids.length)

/-- update_vectordb.py `delete_old_vectors`: for each page id, collect the
ids of all entries whose metadata `page_id` matches, then delete those ids;
returns the collection and the number of deleted vectors. -/
def delete_old_vectors (store : Store) (page_ids : List String) : Store × Nat :=
  page_ids.foldl deleteStep (store, 0)

/-- update_vectordb.py `add_new_vectors`: split the pages into chunks and
upsert them batch by batch under their deterministic ids; returns the
collection and the number of added vectors. -/
def add_new_vectors (splitter : String → List String) (store : Store)
    (pages : List SrcPage) (bs : Nat) : Store × Nat :=
  if pages.isEmpty then (store, 0)
  else
    let chunks := split_into_chunks splitter pages
    if chunks.isEmpty then (store, 0)
    else
      let tb := (chunks.length + bs - 1) / bs
      (List.range tb).foldl
        (fun acc i =>
          let batch := (chunks.drop (i * bs)).take bs
          (upsertChunks acc.1 batch, acc.2 + batch.length))
        (store, 0)

/-- The report of update_vectordb.py `update_process` (the fields the claims
are about). -/
structure UpdateResult where
  deleted_vectors : Nat
  added_vectors : Nat
  final_total : Nat
deriving DecidableEq, Repr

/-- update_vectordb.py `update_process`: identify changes, short-circuit when
the change set is empty and the run is not forced, otherwise load the
embedder, delete the old vectors of modified ∪ deleted pages, then add the
new vectors of added ∪ modified pages. The `Bool` component records whether
the embedding model was loaded. -/
def update_process (splitter : String → List String) (store : Store)
    (bp : List SrcPage) (sp : List (String × TrackedPage)) (bs : Nat)
    (force : Bool) : Store × UpdateResult × Bool :=
  let initial_count := store.length
  let changes := identify_changes bp sp
  let total := changes.added.length + changes.modified.length + changes.deleted.length
  if total = 0 ∧ force = false then (store, ⟨0, 0, initial_count⟩, false)
  else
    let delete_page_ids :=
      ((changes.modified.map (fun p => p.page_id)) ++ changes.deleted).filter
        (fun pid => !(pid == ""))
    let d := delete_old_vectors store delete_page_ids
    let pages_to_add := changes.added ++ changes.modified
    let a := add_new_vectors splitter d.1 pages_to_add bs
    (a.1, ⟨d.2, a.2, a.1.length⟩, true)

/-- One entry of `crawled_pages` in confluence_crawler.py `crawl_page`:
page metadata plus content and the crawl timestamp. -/
structure CrawledPage where
  page_id : String
  title : String
  url : String
  version : Nat
  last_modified : String
  content : String
  crawled_at : String
deriving DecidableEq, Repr

/-- The backup-JSON view of a crawled page, as later read by
`identify_changes` and `split_into_chunks`. -/
def crawledToSrc (p : CrawledPage) : SrcPage :=
  ⟨p.page_id, p.title, p.url, p.version, p.last_modified, p.content⟩

/-- Python dict assignment `pages_state[page_id] = {...}`: overwrite in place
if the key exists, else append (insertion order preserved). -/
def setPage (m : List (String × TrackedPage)) (k : String) (v : TrackedPage) :
    List (String × TrackedPage) :=
  if m.any (fun e => e.1 == k) then
    m.map (fun e => if e.1 == k then (k, v) else e)
  else m ++ [(k, v)]

/-- Key membership in the `pages` map. -/
def hasKey (m : List (String × TrackedPage)) (k : String) : Bool :=
  m.any (fun e => e.1 == k)

namespace ConfluenceCrawler

/-- confluence_crawler.py `ConfluenceCrawler.update_sync_state` restricted to
the `pages` map it persists: start from the loaded sync state's map and set
an entry for every crawled page; nothing is ever removed. -/
def update_sync_state (old : List (String × TrackedPage))
    (crawled : List CrawledPage) : List (String × TrackedPage) :=
  crawled.foldl
    (fun m p => setPage m p.page_id ⟨p.title, p.url, p.version, p.last_modified, p.crawled_at⟩)
    old

end ConfluenceCrawler

/-- The pipeline steps of weekly_update.py `main` (the "완료" step carries no
collaborator call and is omitted). -/
inductive PipeStep
  | envCheck
  | crawl
  | checkChanges
  | preprocess
  | vectorize
deriving DecidableEq, Repr

/-- Whether a KeyboardInterrupt raised inside the step's code reaches
weekly_update.py `main`'s own `except KeyboardInterrupt` handler. The step
helpers catch only `Exception`, which a KeyboardInterrupt is not — except
that `ConfluenceCrawler.run` (confluence_crawler.py lines 634-635) catches
KeyboardInterrupt itself and returns normally, so `step_crawl` reports
success. -/
def interruptEscapes : PipeStep → Bool
  | .crawl => false
  | _ => true

/-- How a weekly_update.py `main` run ends, projected onto the claims:
normal completion, the empty-change-set short circuit, or a rollback from
the pre-run backup. -/
inductive RunOutcome
  | done
  | noChanges
  | rolledBack
deriving DecidableEq, Repr

/-- Control flow of weekly_update.py `main` when every step succeeds, as a
function of where (if anywhere) a user interrupt fires and of whether
`step_check_changes` finds changed pages. An interrupt that escapes its step
is caught by `except KeyboardInterrupt` and `_rollback` runs; an interrupt
swallowed inside the step lets the pipeline continue. -/
def weekly_update_main (interrupt : Option PipeStep) (hasChanges : Bool) : RunOutcome :=
  if interrupt = some PipeStep.envCheck ∧ interruptEscapes PipeStep.envCheck then
    .rolledBack
  else if interrupt = some PipeStep.crawl ∧ interruptEscapes PipeStep.crawl then
    .rolledBack
  else if interrupt = some PipeStep.checkChanges ∧ interruptEscapes PipeStep.checkChanges then
    .rolledBack
  else if hasChanges = false then .noChanges
  else if interrupt = some PipeStep.preprocess ∧ interruptEscapes PipeStep.preprocess then
    .rolledBack
  else if interrupt = some PipeStep.vectorize ∧ interruptEscapes PipeStep.vectorize then
    .rolledBack
  else .done

/-- A concrete modified document for the shrunk-reindex scenario: version 2
against tracked version 1. -/
def c7page : SrcPage := ⟨"d", "t", "u", 2, "m", "body"⟩

/-- The tracked sync state for the shrunk-reindex scenario. -/
def c7tracked : List (String × TrackedPage) := [("d", ⟨"t", "u", 1, "", "z"⟩)]

/-- A collection holding the 5 previously indexed chunks of document "d". -/
def c7store : Store :=
  [("d_chunk_0", ⟨"c0", "d", "t", "u", 0, 5⟩),
   ("d_chunk_1", ⟨"c1", "d", "t", "u", 1, 5⟩),
   ("d_chunk_2", ⟨"c2", "d", "t", "u", 2, 5⟩),
   ("d_chunk_3", ⟨"c3", "d", "t", "u", 3, 5⟩),
   ("d_chunk_4", ⟨"c4", "d", "t", "u", 4, 5⟩)]

/-- Five concrete distinct chunks of one document, used by the concrete
batching scenarios. -/
def fiveChunks : List Chunk :=
  [⟨"a", "P1", "t", "u", 0, 5⟩, ⟨"b", "P1", "t", "u", 1, 5⟩,
   ⟨"c", "P1", "t", "u", 2, 5⟩, ⟨"d", "P1", "t", "u", 3, 5⟩,
   ⟨"e", "P1", "t", "u", 4, 5⟩]

theorem classify_foldl_added (sp : List (String × TrackedPage)) :
    ∀ (bp : List SrcPage) (acc : ChangeSet),
      (bp.foldl (classifyStep sp) acc).added = acc.added ++ bp.filter (addedPred sp) := by
  intro bp
  induction bp with
  | nil => intro acc; simp
  | cons p rest ih =>
      intro acc
      simp only [List.foldl_cons, List.filter_cons]
      by_cases hid : p.page_id = ""
      · have h1 : classifyStep sp acc p = acc := by simp [classifyStep, hid]
        have h2 : addedPred sp p = false := by simp [addedPred, hid]
        rw [h1, h2]
        simp [ih]
      · cases hl : lookupTracked sp p.page_id with
        | none =>
            have h1 : classifyStep sp acc p = { acc with added := acc.added ++ [p] } := by
              simp [classifyStep, hid, hl]
            have h2 : addedPred sp p = true := by simp [addedPred, hid, hl]
            rw [h1, h2, ih]
            simp
        | some prev =>
            by_cases hm : pageModifiedCond p prev
            · have h1 : classifyStep sp acc p = { acc with modified := acc.modified ++ [p] } := by
                simp [classifyStep, hid, hl, hm]
              have h2 : addedPred sp p = false := by simp [addedPred, hid, hl]
              rw [h1, h2, ih]
              simp
            · have h1 : classifyStep sp acc p = acc := by
                simp [classifyStep, hid, hl, hm]
              have h2 : addedPred sp p = false := by simp [addedPred, hid, hl]
              rw [h1, h2, ih]
              simp

theorem classify_foldl_modified (sp : List (String × TrackedPage)) :
    ∀ (bp : List SrcPage) (acc : ChangeSet),
      (bp.foldl (classifyStep sp) acc).modified
        = acc.modified ++ bp.filter (modifiedPred sp) := by
  intro bp
  induction bp with
  | nil => intro acc; simp
  | cons p rest ih =>
      intro acc
      simp only [List.foldl_cons, List.filter_cons]
      by_cases hid : p.page_id = ""
      · have h1 : classifyStep sp acc p = acc := by simp [classifyStep, hid]
        have h2 : modifiedPred sp p = false := by simp [modifiedPred, hid]
        rw [h1, h2, ih]
        simp
      · cases hl : lookupTracked sp p.page_id with
        | none =>
            have h1 : classifyStep sp acc p = { acc with added := acc.added ++ [p] } := by
              simp [classifyStep, hid, hl]
            have h2 : modifiedPred sp p = false := by simp [modifiedPred, hid, hl]
            rw [h1, h2, ih]
            simp
        | some prev =>
            by_cases hm : pageModifiedCond p prev
            · have h1 : classifyStep sp acc p = { acc with modified := acc.modified ++ [p] } := by
                simp [classifyStep, hid, hl, hm]
              have h2 : modifiedPred sp p = true := by simp [modifiedPred, hid, hl, hm]
              rw [h1, h2, ih]
              simp
            · have h1 : classifyStep sp acc p = acc := by
                simp [classifyStep, hid, hl, hm]
              have h2 : modifiedPred sp p = false := by
                simp only [modifiedPred, hl]
                simp [hm]
              rw [h1, h2, ih]
              simp

theorem mem_identify_added {bp : List SrcPage} {sp : List (String × TrackedPage)}
    {p : SrcPage} :
    p ∈ (identify_changes bp sp).added ↔ p ∈ bp ∧ addedPred sp p = true := by
  unfold identify_changes
  simp only [classify_foldl_added sp bp ⟨[], [], []⟩]
  simp [List.mem_filter]

theorem mem_identify_modified {bp : List SrcPage} {sp : List (String × TrackedPage)}
    {p : SrcPage} :
    p ∈ (identify_changes bp sp).modified ↔ p ∈ bp ∧ modifiedPred sp p = true := by
  unfold identify_changes
  simp only [classify_foldl_modified sp bp ⟨[], [], []⟩]
  simp [List.mem_filter]

theorem pageModifiedCond_of_version_eq {p : SrcPage} {prev : TrackedPage}
    (hv : p.version = prev.version) :
    pageModifiedCond p prev
      = (decide (p.last_modified ≠ "") && decide (prev.last_modified ≠ "")
          && decide (p.last_modified ≠ prev.last_modified)) := by
  unfold pageModifiedCond
  rw [hv]
  simp

/-- C1: the claim states that a document present in both the snapshot and the
sync state with equal non-zero version on both sides is classified as
unchanged regardless of the two last_modified values. This is false for
`identify_changes`: with version 5 on both sides but differing non-empty
last_modified values, the document lands in the modified bucket. -/
theorem C1_counterexample :
    (⟨"100001", "t", "u", 5, "2025-02-02", "body"⟩ : SrcPage).version
        = (⟨"t", "u", 5, "2025-02-01", "2025-01-01"⟩ : TrackedPage).version ∧
    0 < (⟨"100001", "t", "u", 5, "2025-02-02", "body"⟩ : SrcPage).version ∧
    (⟨"100001", "t", "u", 5, "2025-02-02", "body"⟩ : SrcPage) ∈
      (identify_changes [⟨"100001", "t", "u", 5, "2025-02-02", "body"⟩]
        [("100001", ⟨"t", "u", 5, "2025-02-01", "2025-01-01"⟩)]).modified := by
  decide

/-- C1 (amended): a document present in both the snapshot and the sync
state's pages map with equal non-zero version on both sides is never
classified added, and it is classified modified exactly when both
last_modified values are non-empty and differ (so it is unchanged regardless
of last_modified only outside that case: `identify_changes` lacks the
version-precedence of the crawler's `is_page_modified`). -/
theorem C1_version_equal_classification (bp : List SrcPage)
    (sp : List (String × TrackedPage)) (p : SrcPage) (prev : TrackedPage)
    (hmem : p ∈ bp) (hid : p.page_id ≠ "")
    (hl : lookupTracked sp p.page_id = some prev)
    (hv : p.version = prev.version) (_hv0 : 0 < p.version) :
    p ∉ (identify_changes bp sp).added ∧
      (p ∈ (identify_changes bp sp).modified ↔
        (p.last_modified ≠ "" ∧ prev.last_modified ≠ "" ∧
          p.last_modified ≠ prev.last_modified)) := by
  constructor
  · intro hadd
    rcases mem_identify_added.mp hadd with ⟨-, hpred⟩
    simp [addedPred, hl] at hpred
  · rw [mem_identify_modified]
    have hpred : modifiedPred sp p = pageModifiedCond p prev := by
      simp [modifiedPred, hl, hid]
    rw [hpred, pageModifiedCond_of_version_eq hv]
    constructor
    · rintro ⟨-, hc⟩
      simp only [Bool.and_eq_true, decide_eq_true_eq] at hc
      exact ⟨hc.1.1, hc.1.2, hc.2⟩
    · rintro ⟨h1, h2, h3⟩
      exact ⟨hmem, by simp [h1, h2, h3]⟩

/-- Witness for C1_version_equal_classification at a concrete input. -/
theorem C1_witness :
    (⟨"200", "t", "u", 3, "2025-01-01", "body"⟩ : SrcPage) ∉
        (identify_changes [⟨"200", "t", "u", 3, "2025-01-01", "body"⟩]
          [("200", ⟨"t", "u", 3, "2025-01-01", "z"⟩)]).added ∧
      ((⟨"200", "t", "u", 3, "2025-01-01", "body"⟩ : SrcPage) ∈
          (identify_changes [⟨"200", "t", "u", 3, "2025-01-01", "body"⟩]
            [("200", ⟨"t", "u", 3, "2025-01-01", "z"⟩)]).modified ↔
        (("2025-01-01" : String) ≠ "" ∧ ("2025-01-01" : String) ≠ "" ∧
          ("2025-01-01" : String) ≠ "2025-01-01")) :=
  C1_version_equal_classification
    [⟨"200", "t", "u", 3, "2025-01-01", "body"⟩]
    [("200", ⟨"t", "u", 3, "2025-01-01", "z"⟩)]
    ⟨"200", "t", "u", 3, "2025-01-01", "body"⟩
    ⟨"t", "u", 3, "2025-01-01", "z"⟩
    (by decide) (by decide) (by decide) (by decide) (by decide)

theorem runLoop_none_completes (bs : Nat) (chunks : List Chunk) (sb si : Nat) :
    ∀ (n i : Nat) (st : IndexerState),
      (runLoop bs chunks sb si none n i st).2 = true := by
  intro n
  induction n with
  | zero => intro i st; rfl
  | succ n ih => intro i st; simp [runLoop, ih]

theorem runLoop_abort (bs : Nat) (chunks : List Chunk) (sb si j : Nat) :
    ∀ (n i : Nat) (st : IndexerState), i ≤ j → j < i + n →
      (runLoop bs chunks sb si (some j) n i st).2 = false ∧
      (runLoop bs chunks sb si (some j) n i st).1.checkpoint
        = (if i = j then st.checkpoint else some (sb + j)) := by
  intro n
  induction n with
  | zero =>
      intro i st h1 h2
      exact absurd h2 (by omega)
  | succ n ih =>
      intro i st h1 h2
      by_cases hij : i = j
      · subst hij
        constructor
        · simp [runLoop]
        · simp [runLoop]
      · have hne : ¬ ((some j : Option Nat) = some i) := by
          simp only [Option.some.injEq]
          omega
        have hrec := ih (i + 1) (doBatch bs chunks sb si i st) (by omega) (by omega)
        constructor
        · rw [runLoop, if_neg hne]
          exact hrec.1
        · rw [runLoop, if_neg hne, hrec.2, if_neg hij]
          by_cases h3 : i + 1 = j
          · rw [if_pos h3]
            simp only [doBatch, Option.some.injEq]
            omega
          · rw [if_neg h3]

theorem build_vectordb_abort (bs : Nat) (chunks : List Chunk) (cp : Option Nat)
    (store : Store) (j : Nat) (hne : chunks ≠ [])
    (hj : j < totalBatches bs chunks cp) :
    (build_vectordb bs chunks cp store (some j)).2 = IndexOutcome.aborted ∧
    (build_vectordb bs chunks cp store (some j)).1.checkpoint
      = (if j = 0 then cp else some (loadProgress cp + j)) := by
  have hE : chunks.isEmpty = false := by
    cases chunks with
    | nil => exact absurd rfl hne
    | cons a l => rfl
  have habort := runLoop_abort bs chunks (loadProgress cp) (loadProgress cp * bs) j
      (totalBatches bs chunks cp) 0 ⟨store, cp, []⟩ (by omega) (by omega)
  unfold build_vectordb
  rw [hE]
  simp only [Bool.false_eq_true, if_false]
  rcases hr : runLoop bs chunks (loadProgress cp) (loadProgress cp * bs) (some j)
      ((chunks.length - loadProgress cp * bs + bs - 1) / bs) 0 ⟨store, cp, []⟩ with ⟨st, b⟩
  have htb : (chunks.length - loadProgress cp * bs + bs - 1) / bs
      = totalBatches bs chunks cp := rfl
  rw [htb] at hr
  rw [hr] at habort
  simp only at habort
  rcases habort with ⟨hb, hc⟩
  subst hb
  constructor
  · rfl
  · simp only
    rw [hc]
    by_cases h0 : j = 0
    · subst h0
      simp
    · rw [if_neg h0, if_neg (by omega : ¬ (0 = j))]

theorem build_vectordb_complete (bs : Nat) (chunks : List Chunk) (cp : Option Nat)
    (store : Store) (hne : chunks ≠ []) :
    (build_vectordb bs chunks cp store none).2 = IndexOutcome.completed ∧
    (build_vectordb bs chunks cp store none).1.checkpoint = none := by
  have hE : chunks.isEmpty = false := by
    cases chunks with
    | nil => exact absurd rfl hne
    | cons a l => rfl
  have hok := runLoop_none_completes bs chunks (loadProgress cp) (loadProgress cp * bs)
      ((chunks.length - loadProgress cp * bs + bs - 1) / bs) 0 ⟨store, cp, []⟩
  unfold build_vectordb
  rw [hE]
  simp only [Bool.false_eq_true, if_false]
  rcases hr : runLoop bs chunks (loadProgress cp) (loadProgress cp * bs) none
      ((chunks.length - loadProgress cp * bs + bs - 1) / bs) 0 ⟨store, cp, []⟩ with ⟨st, b⟩
  rw [hr] at hok
  simp only at hok
  subst hok
  exact ⟨rfl, rfl⟩

/-- C2: the claim states the checkpoint written after the batch with index k
completes records k itself. It does not: with batch size 2 over 5 chunks and
a fresh run that fails while starting batch 1 (so batch 0, the just-completed
batch, has index 0), the persisted checkpoint is 1, not 0. -/
theorem C2_counterexample :
    (build_vectordb 2 fiveChunks none [] (some 1)).1.checkpoint = some 1 ∧
      (build_vectordb 2 fiveChunks none [] (some 1)).1.checkpoint ≠ some 0 := by
  decide

/-- C2 (amended): after the batch with absolute index k = resume point + j - 1
successfully upserts, the checkpoint persisted under "last_completed_batch"
records k + 1 (the index of the next batch to process, i.e. the count of
completed batches), not k; and the write does happen before the next batch is
started — here the next batch (position j) aborts before any effect, yet the
checkpoint already holds k + 1. -/
theorem C2_checkpoint_after_batch (bs : Nat) (chunks : List Chunk)
    (cp : Option Nat) (store : Store) (j : Nat) (hne : chunks ≠ [])
    (hj1 : 1 ≤ j) (hj2 : j < totalBatches bs chunks cp) :
    (build_vectordb bs chunks cp store (some j)).1.checkpoint
      = some ((loadProgress cp + (j - 1)) + 1) := by
  have h := (build_vectordb_abort bs chunks cp store j hne hj2).2
  rw [h, if_neg (by omega : ¬ j = 0)]
  congr 1
  omega

/-- Witness for C2_checkpoint_after_batch at a concrete input. -/
theorem C2_witness :
    (build_vectordb 2 fiveChunks none [] (some 1)).1.checkpoint
      = some ((loadProgress none + (1 - 1)) + 1) :=
  C2_checkpoint_after_batch 2 fiveChunks none [] 1 (by decide) (by decide) (by decide)

/-- C5: with batch size 2 and 5 chunks the indexer runs 3 batches of sizes
2, 2, 1; a run that stops right after batch index 1 completes has persisted
checkpoint 2, and the restarted run resumes at batch index 2, embedding only
the fifth chunk and no chunk of batches 0 or 1. -/
theorem C5_interrupted_resume :
    totalBatches 2 fiveChunks none = 3 ∧
    (List.range (totalBatches 2 fiveChunks none)).map
        (fun i => ((fiveChunks.drop (i * 2)).take 2).length) = [2, 2, 1] ∧
    (build_vectordb 2 fiveChunks none [] (some 2)).1.checkpoint = some 2 ∧
    loadProgress (build_vectordb 2 fiveChunks none [] (some 2)).1.checkpoint = 2 ∧
    (build_vectordb 2 fiveChunks
        (build_vectordb 2 fiveChunks none [] (some 2)).1.checkpoint
        (build_vectordb 2 fiveChunks none [] (some 2)).1.store none).1.embedded
      = [⟨"e", "P1", "t", "u", 4, 5⟩] ∧
    (∀ c ∈ (build_vectordb 2 fiveChunks
        (build_vectordb 2 fiveChunks none [] (some 2)).1.checkpoint
        (build_vectordb 2 fiveChunks none [] (some 2)).1.store none).1.embedded,
      c ∉ fiveChunks.take 4) := by
  decide

/-- C6: on a run over a non-empty chunk list, normal completion of all
batches deletes the checkpoint; a non-resource-exhaustion exception at batch
position j aborts the run, leaves the checkpoint exactly as it was after the
last completed batch (the failed batch's checkpoint is never written), and
the next invocation's resume point is precisely the failed batch's absolute
index, whose batch slice is unchanged — so the failed batch is retried in
full. -/
theorem C6_checkpoint_lifecycle (bs : Nat) (chunks : List Chunk)
    (cp : Option Nat) (store : Store) (j : Nat) (hne : chunks ≠ [])
    (hj : j < totalBatches bs chunks cp) :
    ((build_vectordb bs chunks cp store none).2 = IndexOutcome.completed ∧
      (build_vectordb bs chunks cp store none).1.checkpoint = none) ∧
    ((build_vectordb bs chunks cp store (some j)).2 = IndexOutcome.aborted ∧
      (build_vectordb bs chunks cp store (some j)).1.checkpoint
        = (if j = 0 then cp else some (loadProgress cp + j)) ∧
      loadProgress (build_vectordb bs chunks cp store (some j)).1.checkpoint
        = loadProgress cp + j ∧
      (chunks.drop
          (loadProgress (build_vectordb bs chunks cp store (some j)).1.checkpoint * bs)).take bs
        = (chunks.drop (loadProgress cp * bs + j * bs)).take bs) := by
  have hcomp := build_vectordb_complete bs chunks cp store hne
  have habort := build_vectordb_abort bs chunks cp store j hne hj
  refine ⟨hcomp, habort.1, habort.2, ?_, ?_⟩
  · rw [habort.2]
    by_cases h0 : j = 0
    · subst h0
      cases cp <;> simp [loadProgress]
    · rw [if_neg h0]
      rfl
  · rw [habort.2]
    by_cases h0 : j = 0
    · subst h0
      cases cp <;> simp [loadProgress]
    · rw [if_neg h0]
      have : loadProgress (some (loadProgress cp + j)) * bs
          = loadProgress cp * bs + j * bs := by
        simp [loadProgress, Nat.add_mul]
      rw [this]

/-- Witness for C6_checkpoint_lifecycle at a concrete input. -/
theorem C6_witness :
    ((build_vectordb 2 fiveChunks none [] none).2 = IndexOutcome.completed ∧
      (build_vectordb 2 fiveChunks none [] none).1.checkpoint = none) ∧
    ((build_vectordb 2 fiveChunks none [] (some 1)).2 = IndexOutcome.aborted ∧
      (build_vectordb 2 fiveChunks none [] (some 1)).1.checkpoint
        = (if 1 = 0 then none else some (loadProgress none + 1)) ∧
      loadProgress (build_vectordb 2 fiveChunks none [] (some 1)).1.checkpoint
        = loadProgress none + 1 ∧
      (fiveChunks.drop
          (loadProgress (build_vectordb 2 fiveChunks none [] (some 1)).1.checkpoint * 2)).take 2
        = (fiveChunks.drop (loadProgress none * 2 + 1 * 2)).take 2) :=
  C6_checkpoint_lifecycle 2 fiveChunks none [] 1 (by decide) (by decide)

/-- C4: the claim states an interrupt during any pipeline step — in
particular during crawling — triggers rollback. It does not: a
KeyboardInterrupt raised during the crawl step is caught inside
`ConfluenceCrawler.run`, `step_crawl` reports success, and the pipeline runs
to completion instead of rolling back. -/
theorem C4_counterexample :
    weekly_update_main (some PipeStep.crawl) true = RunOutcome.done ∧
      weekly_update_main (some PipeStep.crawl) true ≠ RunOutcome.rolledBack := by
  decide

/-- C4 (amended): a user interrupt during the environment-check,
change-check, preprocessing or vectorization steps escapes to the
orchestrator's KeyboardInterrupt handler and triggers rollback from the
pre-run backup, but an interrupt during the crawling step is swallowed by
`ConfluenceCrawler.run` and the pipeline proceeds exactly as if no interrupt
had occurred. -/
theorem C4_interrupt_handling :
    (∀ hc : Bool, weekly_update_main (some PipeStep.crawl) hc
        = weekly_update_main none hc) ∧
    (∀ hc : Bool, weekly_update_main (some PipeStep.envCheck) hc
        = RunOutcome.rolledBack) ∧
    (∀ hc : Bool, weekly_update_main (some PipeStep.checkChanges) hc
        = RunOutcome.rolledBack) ∧
    weekly_update_main (some PipeStep.preprocess) true = RunOutcome.rolledBack ∧
    weekly_update_main (some PipeStep.vectorize) true = RunOutcome.rolledBack := by
  decide

theorem any_key_map_set (pid k : String) (v : TrackedPage) :
    ∀ m : List (String × TrackedPage),
      ((m.map (fun e => if e.1 == pid then (pid, v) else e)).any (fun e => e.1 == k))
        = m.any (fun e => e.1 == k) := by
  intro m
  induction m with
  | nil => rfl
  | cons e rest ih =>
      simp only [List.map_cons, List.any_cons, ih]
      by_cases hep : e.1 = pid
      · rw [if_pos (by simp [hep]), hep]
      · rw [if_neg (by simp [hep])]

theorem hasKey_setPage (m : List (String × TrackedPage)) (k pid : String)
    (v : TrackedPage) :
    hasKey (setPage m pid v) k = (hasKey m k || k == pid) := by
  unfold setPage hasKey
  by_cases hp : m.any (fun e => e.1 == pid)
  · rw [if_pos hp, any_key_map_set]
    by_cases hk : k = pid
    · subst hk
      simp only [beq_self_eq_true, Bool.or_true]
      exact hp
    · rw [beq_eq_false_iff_ne.mpr hk, Bool.or_false]
  · rw [if_neg hp, List.any_append]
    simp only [List.any_cons, List.any_nil, Bool.or_false]
    congr 1
    by_cases hk : k = pid
    · subst hk
      simp
    · rw [beq_eq_false_iff_ne.mpr hk,
        beq_eq_false_iff_ne.mpr (fun h => hk h.symm)]

theorem hasKey_update_sync_state (crawled : List CrawledPage) :
    ∀ (old : List (String × TrackedPage)) (k : String),
      hasKey (ConfluenceCrawler.update_sync_state old crawled) k
        = (hasKey old k || (crawled.map (fun p => p.page_id)).contains k) := by
  induction crawled with
  | nil =>
      intro old k
      simp [ConfluenceCrawler.update_sync_state]
  | cons p rest ih =>
      intro old k
      unfold ConfluenceCrawler.update_sync_state at ih ⊢
      simp only [List.foldl_cons, List.map_cons]
      rw [ih, hasKey_setPage, List.contains_cons, Bool.or_assoc]

/-- C3: the claim states a sync-state entry exists iff the document was
successfully indexed in some prior run, and in particular that a document a
completed run reports as deleted loses its entry. It does not: with tracked
page "100002" and a completed run whose snapshot contains no pages, the
change set reports "100002" deleted, yet the post-run pages map written by
`ConfluenceCrawler.update_sync_state` still contains its entry. -/
theorem C3_counterexample :
    "100002" ∈ (identify_changes []
        [("100002", ⟨"t", "u", 1, "2025-01-01", "z"⟩)]).deleted ∧
    hasKey (ConfluenceCrawler.update_sync_state
        [("100002", ⟨"t", "u", 1, "2025-01-01", "z"⟩)] []) "100002" = true := by
  decide

/-- C3 (amended): after a completed run, the pages map contains an entry for
a document exactly when it already had one before the run or the run crawled
and saved that document — entries are created at crawl time regardless of
indexing, never removed for deleted documents, and a crawled page with blank
content gets an entry even though it contributes no chunks (hence no
vectors). -/
theorem C3_pages_membership :
    (∀ (old : List (String × TrackedPage)) (crawled : List CrawledPage) (k : String),
        hasKey (ConfluenceCrawler.update_sync_state old crawled) k
          = (hasKey old k || (crawled.map (fun p => p.page_id)).contains k)) ∧
    (∀ (splitter : String → List String) (old : List (String × TrackedPage))
        (p : CrawledPage), isBlank p.content = true →
          hasKey (ConfluenceCrawler.update_sync_state old [p]) p.page_id = true ∧
          split_into_chunks splitter [crawledToSrc p] = []) := by
  constructor
  · intro old crawled k
    exact hasKey_update_sync_state crawled old k
  · intro splitter old p hb
    constructor
    · rw [hasKey_update_sync_state]
      simp
    · simp [split_into_chunks, crawledToSrc, hb]

/-- Witness for C3_pages_membership at a concrete input. -/
theorem C3_witness :
    hasKey (ConfluenceCrawler.update_sync_state []
        [⟨"300", "t", "u", 1, "", "  ", "2025-01-02"⟩]) "300" = true ∧
    split_into_chunks (fun s => [s])
        [crawledToSrc ⟨"300", "t", "u", 1, "", "  ", "2025-01-02"⟩] = [] :=
  C3_pages_membership.2 (fun s => [s]) []
    ⟨"300", "t", "u", 1, "", "  ", "2025-01-02"⟩ (by decide)

/-- C9: when the change set is empty in all three buckets and force is
false, `update_process` leaves the collection untouched, reports zero
deleted and zero added vectors with the unchanged total, and never loads
the embedding model; with force = true the deletion and insertion phases
run (the embedder is loaded), still deleting and adding nothing on the
empty change set and leaving the count unchanged. -/
theorem C9_noop_and_force (splitter : String → List String) (store : Store)
    (bp : List SrcPage) (sp : List (String × TrackedPage)) (bs : Nat)
    (h : identify_changes bp sp = ⟨[], [], []⟩) :
    update_process splitter store bp sp bs false
        = (store, ⟨0, 0, store.length⟩, false) ∧
    ((update_process splitter store bp sp bs true).2.2 = true ∧
      (update_process splitter store bp sp bs true).1 = store ∧
      (update_process splitter store bp sp bs true).2.1.deleted_vectors = 0 ∧
      (update_process splitter store bp sp bs true).2.1.added_vectors = 0 ∧
      (update_process splitter store bp sp bs true).2.1.final_total = store.length) := by
  constructor
  · simp [update_process, h]
  · simp [update_process, h, delete_old_vectors, add_new_vectors]

/-- Witness for C9_noop_and_force at a concrete input. -/
theorem C9_witness :
    update_process (fun s => [s]) [] [] [] 10 false
        = ([], ⟨0, 0, ([] : Store).length⟩, false) ∧
    ((update_process (fun s => [s]) [] [] [] 10 true).2.2 = true ∧
      (update_process (fun s => [s]) [] [] [] 10 true).1 = [] ∧
      (update_process (fun s => [s]) [] [] [] 10 true).2.1.deleted_vectors = 0 ∧
      (update_process (fun s => [s]) [] [] [] 10 true).2.1.added_vectors = 0 ∧
      (update_process (fun s => [s]) [] [] [] 10 true).2.1.final_total
        = ([] : Store).length) :=
  C9_noop_and_force (fun s => [s]) [] [] [] 10 (by decide)

theorem upsertChunks_append (s : Store) (a b : List Chunk) :
    upsertChunks s (a ++ b) = upsertChunks (upsertChunks s a) b := by
  simp [upsertChunks, List.foldl_append]

theorem join_slices (bs : Nat) (hbs : 0 < bs) :
    ∀ (n : Nat) (l : List Chunk), (l.length + bs - 1) / bs = n →
      ((List.range n).map (fun i => (l.drop (i * bs)).take bs)).flatten = l := by
  intro n
  induction n with
  | zero =>
      intro l h
      have hlen : l.length = 0 := by
        by_contra hne
        have h1 : 1 ≤ (l.length + bs - 1) / bs := by
          rw [Nat.le_div_iff_mul_le hbs]
          omega
        omega
      rw [List.length_eq_zero.mp hlen]
      simp
  | succ n ih =>
      intro l h
      have hpos : l.length ≠ 0 := by
        intro h0
        rw [h0] at h
        have : (0 + bs - 1) / bs = 0 := Nat.div_eq_of_lt (by omega)
        omega
      have hkey : (l.length - 1) / bs = n := by
        have h1 : l.length + bs - 1 = (l.length - 1) + bs := by omega
        rw [h1, Nat.add_div_right _ hbs] at h
        omega
      have hih : ((l.drop bs).length + bs - 1) / bs = n := by
        rw [List.length_drop]
        by_cases hle : l.length ≤ bs
        · have h2 : l.length - bs = 0 := by omega
          rw [h2]
          have hz : (0 + bs - 1) / bs = 0 := Nat.div_eq_of_lt (by omega)
          have hn : (l.length - 1) / bs = 0 := Nat.div_eq_of_lt (by omega)
          omega
        · have h2 : l.length - bs + bs - 1 = l.length - 1 := by omega
          rw [h2]
          exact hkey
      rw [List.range_succ_eq_map, List.map_cons, List.map_map]
      have hfun : ((fun i => (l.drop (i * bs)).take bs) ∘ Nat.succ)
          = fun i => ((l.drop bs).drop (i * bs)).take bs := by
        funext i
        simp only [Function.comp_apply, List.drop_drop]
        congr 2
        simp only [Nat.succ_eq_add_one]
        ring
      rw [hfun]
      simp only [List.flatten_cons]
      rw [ih (l.drop bs) hih]
      simp [List.take_append_drop]

theorem runLoop_none_store (bs : Nat) (chunks : List Chunk) (sb si : Nat) :
    ∀ (n i : Nat) (st : IndexerState),
      (runLoop bs chunks sb si none n i st).1.store
        = upsertChunks st.store
            (((List.range n).map
              (fun t => (chunks.drop (si + (i + t) * bs)).take bs)).flatten) := by
  intro n
  induction n with
  | zero =>
      intro i st
      simp [runLoop, upsertChunks]
  | succ n ih =>
      intro i st
      rw [runLoop]
      simp only [reduceCtorEq, if_false]
      rw [ih (i + 1) (doBatch bs chunks sb si i st)]
      rw [List.range_succ_eq_map, List.map_cons, List.map_map]
      have hfun : ((fun t => (chunks.drop (si + (i + t) * bs)).take bs) ∘ Nat.succ)
          = fun t => (chunks.drop (si + (i + 1 + t) * bs)).take bs := by
        funext t
        simp only [Function.comp_apply]
        congr 3
        simp only [Nat.succ_eq_add_one]
        ring
      rw [hfun]
      simp only [List.flatten_cons]
      rw [upsertChunks_append]
      congr 1

theorem build_vectordb_store_none (bs : Nat) (hbs : 0 < bs) (chunks : List Chunk)
    (store : Store) :
    (build_vectordb bs chunks none store none).1.store = upsertChunks store chunks := by
  cases hc : chunks.isEmpty
  · unfold build_vectordb
    rw [hc]
    simp only [Bool.false_eq_true, if_false]
    rcases hr : runLoop bs chunks (loadProgress none) (loadProgress none * bs) none
        ((chunks.length - loadProgress none * bs + bs - 1) / bs) 0 ⟨store, none, []⟩
      with ⟨st, b⟩
    have hok := runLoop_none_completes bs chunks (loadProgress none)
        (loadProgress none * bs)
        ((chunks.length - loadProgress none * bs + bs - 1) / bs) 0 ⟨store, none, []⟩
    rw [hr] at hok
    simp only at hok
    subst hok
    simp only
    have hst := runLoop_none_store bs chunks (loadProgress none) (loadProgress none * bs)
        ((chunks.length - loadProgress none * bs + bs - 1) / bs) 0 ⟨store, none, []⟩
    rw [hr] at hst
    simp only at hst
    rw [hst]
    congr 1
    have hzero : loadProgress none * bs = 0 := by simp [loadProgress]
    have hfun : (fun t => (chunks.drop (loadProgress none * bs + (0 + t) * bs)).take bs)
        = fun i => (chunks.drop (i * bs)).take bs := by
      funext t
      rw [hzero]
      simp
    rw [hfun]
    apply join_slices bs hbs
    rw [hzero]
    simp
  · have : chunks = [] := List.isEmpty_iff.mp hc
    subst this
    simp [build_vectordb, upsertChunks]

theorem upsertChunks_cons (s : Store) (c : Chunk) (rest : List Chunk) :
    upsertChunks s (c :: rest) = upsertChunks (upsert s (chunkId c) c) rest := rfl

theorem ids_map_set (id : String) (c : Chunk) :
    ∀ s : Store,
      ((s.map (fun e => if e.1 == id then (id, c) else e)).map (fun e => e.1))
        = s.map (fun e => e.1) := by
  intro s
  induction s with
  | nil => rfl
  | cons e rest ih =>
      simp only [List.map_cons, ih]
      congr 1
      by_cases h : e.1 = id
      · rw [if_pos (by simp [h]), h]
      · rw [if_neg (by simp [h])]

theorem ids_upsert (s : Store) (id : String) (c : Chunk) :
    (upsert s id c).map (fun e => e.1)
      = (if s.any (fun e => e.1 == id) then s.map (fun e => e.1)
         else s.map (fun e => e.1) ++ [id]) := by
  unfold upsert
  by_cases h : s.any (fun e => e.1 == id)
  · rw [if_pos h, if_pos h, ids_map_set]
  · rw [if_neg h, if_neg h]
    simp

theorem any_id_eq (s : Store) (id : String) :
    s.any (fun e => e.1 == id) = (s.map (fun e => e.1)).any (fun x => x == id) := by
  induction s with
  | nil => rfl
  | cons e rest ih => simp only [List.any_cons, List.map_cons, ih]

theorem upsertChunks_fresh :
    ∀ (cs : List Chunk) (s : Store),
      (∀ c ∈ cs, s.any (fun e => e.1 == chunkId c) = false) →
      (cs.map chunkId).Nodup →
      (upsertChunks s cs).map (fun e => e.1)
        = s.map (fun e => e.1) ++ cs.map chunkId := by
  intro cs
  induction cs with
  | nil =>
      intro s h hnd
      simp [upsertChunks]
  | cons c rest ih =>
      intro s h hnd
      have hc := h c (List.mem_cons_self c rest)
      have hids : (upsert s (chunkId c) c).map (fun e => e.1)
          = s.map (fun e => e.1) ++ [chunkId c] := by
        rw [ids_upsert, if_neg (by simp [hc])]
      have hrest : ∀ c' ∈ rest,
          (upsert s (chunkId c) c).any (fun e => e.1 == chunkId c') = false := by
        intro c' hc'
        rw [any_id_eq, hids, List.any_append]
        have h1 : (s.map (fun e => e.1)).any (fun x => x == chunkId c') = false := by
          rw [← any_id_eq]
          exact h c' (List.mem_cons_of_mem _ hc')
        have h2 : ([chunkId c].any (fun x => x == chunkId c')) = false := by
          simp only [List.any_cons, List.any_nil, Bool.or_false]
          have hne : chunkId c ≠ chunkId c' := by
            intro heq
            have : chunkId c ∈ rest.map chunkId :=
              heq ▸ List.mem_map_of_mem chunkId hc'
            exact (List.nodup_cons.mp hnd).1 this
          exact beq_eq_false_iff_ne.mpr hne
        rw [h1, h2]
        rfl
      rw [upsertChunks_cons, ih _ hrest (List.nodup_cons.mp hnd).2, hids]
      simp

theorem upsertChunks_existing :
    ∀ (cs : List Chunk) (s : Store),
      (∀ c ∈ cs, s.any (fun e => e.1 == chunkId c) = true) →
      (upsertChunks s cs).map (fun e => e.1) = s.map (fun e => e.1) := by
  intro cs
  induction cs with
  | nil => intro s h; rfl
  | cons c rest ih =>
      intro s h
      have hc := h c (List.mem_cons_self c rest)
      have hids : (upsert s (chunkId c) c).map (fun e => e.1)
          = s.map (fun e => e.1) := by
        rw [ids_upsert, if_pos hc]
      have hrest : ∀ c' ∈ rest,
          (upsert s (chunkId c) c).any (fun e => e.1 == chunkId c') = true := by
        intro c' hc'
        rw [any_id_eq, hids, ← any_id_eq]
        exact h c' (List.mem_cons_of_mem _ hc')
      rw [upsertChunks_cons, ih _ hrest, hids]

/-- C8: running the batch indexer over the same chunk set twice — first into
an empty collection, then again over the resulting collection — yields a
vector count equal to the chunk count both times, not double: the
deterministic ids make the second run's upserts overwrite instead of
duplicate. The hypothesis says the deterministic ids of the chunk set are
pairwise distinct (true of any real `processed_chunks.json`, whose chunks
come from distinct documents with per-document contiguous indices). -/
theorem C8_idempotent_rerun (bs : Nat) (chunks : List Chunk) (hbs : 0 < bs)
    (hnd : (chunks.map chunkId).Nodup) :
    ((build_vectordb bs chunks none [] none).1.store).length = chunks.length ∧
    ((build_vectordb bs chunks none
        (build_vectordb bs chunks none [] none).1.store none).1.store).length
      = chunks.length := by
  have h1 : (build_vectordb bs chunks none [] none).1.store = upsertChunks [] chunks :=
    build_vectordb_store_none bs hbs chunks []
  have hfresh : ∀ c ∈ chunks, ([] : Store).any (fun e => e.1 == chunkId c) = false := by
    intro c hc
    rfl
  have hidsOnce : (upsertChunks [] chunks).map (fun e => e.1) = chunks.map chunkId := by
    rw [upsertChunks_fresh chunks [] hfresh hnd]
    rfl
  have hlenOnce : (upsertChunks [] chunks).length = chunks.length := by
    have hl := congrArg List.length hidsOnce
    simpa using hl
  have hmem : ∀ c ∈ chunks,
      (upsertChunks [] chunks).any (fun e => e.1 == chunkId c) = true := by
    intro c hc
    rw [any_id_eq, hidsOnce, List.any_eq_true]
    exact ⟨chunkId c, List.mem_map_of_mem chunkId hc, by simp⟩
  have h2 : (build_vectordb bs chunks none (upsertChunks [] chunks) none).1.store
      = upsertChunks (upsertChunks [] chunks) chunks :=
    build_vectordb_store_none bs hbs chunks (upsertChunks [] chunks)
  have hlenTwice : (upsertChunks (upsertChunks [] chunks) chunks).length
      = chunks.length := by
    have hl := congrArg List.length (upsertChunks_existing chunks _ hmem)
    simpa [hlenOnce] using hl
  constructor
  · rw [h1]
    exact hlenOnce
  · rw [h1, h2]
    exact hlenTwice

/-- Witness for C8_idempotent_rerun at a concrete input. -/
theorem C8_witness :
    ((build_vectordb 2 fiveChunks none [] none).1.store).length
        = fiveChunks.length ∧
    ((build_vectordb 2 fiveChunks none
        (build_vectordb 2 fiveChunks none [] none).1.store none).1.store).length
      = fiveChunks.length :=
  C8_idempotent_rerun 2 fiveChunks (by decide) (by decide)

theorem deleteStep_sub (acc : Store × Nat) (pid : String) :
    ∀ e ∈ (deleteStep acc pid).1, e ∈ acc.1 := by
  intro e he
  unfold deleteStep at he
  by_cases h : ((acc.1.filter (fun e => e.2.page_id == pid)).map (fun e => e.1)).isEmpty
  · rw [if_pos h] at he
    exact he
  · rw [if_neg h] at he
    exact List.mem_of_mem_filter he

theorem deleteStep_no_pid (acc : Store × Nat) (pid : String) :
    ∀ e ∈ (deleteStep acc pid).1, e.2.page_id ≠ pid := by
  intro e he heq
  unfold deleteStep at he
  by_cases h : ((acc.1.filter (fun e => e.2.page_id == pid)).map (fun e => e.1)).isEmpty
  · rw [if_pos h] at he
    have hnil : acc.1.filter (fun e => e.2.page_id == pid) = [] := by
      have := List.isEmpty_iff.mp h
      exact List.map_eq_nil.mp this
    have := List.filter_eq_nil.mp hnil e he
    simp [heq] at this
  · rw [if_neg h] at he
    rcases List.mem_filter.mp he with ⟨hmem, hpred⟩
    have hin : e.1 ∈ (acc.1.filter (fun e => e.2.page_id == pid)).map (fun e => e.1) := by
      apply List.mem_map_of_mem
      rw [List.mem_filter]
      exact ⟨hmem, by simp [heq]⟩
    simp only [Bool.not_eq_true'] at hpred
    have hct : ((acc.1.filter (fun e => e.2.page_id == pid)).map (fun e => e.1)).contains e.1
        = true := List.elem_eq_true_of_mem hin
    rw [hpred] at hct
    exact Bool.false_ne_true hct

theorem deleteStep_nodup (acc : Store × Nat) (pid : String)
    (hnd : (acc.1.map (fun e => e.1)).Nodup) :
    (((deleteStep acc pid).1).map (fun e => e.1)).Nodup := by
  unfold deleteStep
  by_cases h : ((acc.1.filter (fun e => e.2.page_id == pid)).map (fun e => e.1)).isEmpty
  · rw [if_pos h]
    exact hnd
  · rw [if_neg h]
    exact ((List.filter_sublist acc.1).map (fun e => e.1)).nodup hnd

theorem delete_foldl_sub (pids : List String) :
    ∀ (acc : Store × Nat), ∀ e ∈ (pids.foldl deleteStep acc).1, e ∈ acc.1 := by
  induction pids with
  | nil =>
      intro acc e he
      exact he
  | cons pid rest ih =>
      intro acc e he
      rw [List.foldl_cons] at he
      exact deleteStep_sub acc pid e (ih _ e he)

theorem delete_foldl_no_pid (d : String) (pids : List String) (hd : d ∈ pids) :
    ∀ (acc : Store × Nat), ∀ e ∈ (pids.foldl deleteStep acc).1, e.2.page_id ≠ d := by
  induction pids with
  | nil => exact absurd hd (List.not_mem_nil d)
  | cons pid rest ih =>
      intro acc e he
      rw [List.foldl_cons] at he
      by_cases hr : d ∈ rest
      · exact ih hr _ e he
      · have hdp : d = pid := by
          rcases List.mem_cons.mp hd with h | h
          · exact h
          · exact absurd h hr
        subst hdp
        have hsub : e ∈ (deleteStep acc d).1 := delete_foldl_sub rest _ e he
        exact deleteStep_no_pid acc d e hsub

theorem delete_foldl_nodup (pids : List String) :
    ∀ (acc : Store × Nat), (acc.1.map (fun e => e.1)).Nodup →
      (((pids.foldl deleteStep acc).1).map (fun e => e.1)).Nodup := by
  induction pids with
  | nil =>
      intro acc h
      exact h
  | cons pid rest ih =>
      intro acc h
      rw [List.foldl_cons]
      exact ih _ (deleteStep_nodup acc pid h)

theorem map_set_not_mem (id : String) (c : Chunk) :
    ∀ (l : Store), id ∉ l.map (fun e => e.1) →
      l.map (fun e => if e.1 == id then (id, c) else e) = l := by
  intro l
  induction l with
  | nil => intro h; rfl
  | cons e rest ih =>
      intro h
      simp only [List.map_cons, List.mem_cons] at h
      push_neg at h
      rw [List.map_cons, if_neg (by simp only [beq_iff_eq]; exact fun hh => h.1 hh.symm),
        ih h.2]

theorem filter_ne_id_of_not_mem (id : String) :
    ∀ (l : Store), id ∉ l.map (fun e => e.1) →
      l.filter (fun e => !(e.1 == id)) = l := by
  intro l h
  rw [List.filter_eq_self]
  intro e he
  simp only [List.mem_map] at h
  push_neg at h
  simp [h e he]

theorem upsert_perm (s : Store) (id : String) (c : Chunk)
    (hnd : (s.map (fun e => e.1)).Nodup) :
    List.Perm (upsert s id c) ((s.filter (fun e => !(e.1 == id))) ++ [(id, c)]) := by
  unfold upsert
  by_cases h : s.any (fun e => e.1 == id)
  · rw [if_pos h]
    rcases List.any_eq_true.mp h with ⟨e0, he0, heq⟩
    have hid : e0.1 = id := by simpa using heq
    rcases List.append_of_mem he0 with ⟨xs, ys, rfl⟩
    rw [List.map_append, List.map_cons] at hnd
    have hmid := List.nodup_middle.mp hnd
    have hnotin : e0.1 ∉ xs.map (fun e => e.1) ++ ys.map (fun e => e.1) :=
      (List.nodup_cons.mp hmid).1
    rw [List.mem_append] at hnotin
    push_neg at hnotin
    have hxs : id ∉ xs.map (fun e => e.1) := hid ▸ hnotin.1
    have hys : id ∉ ys.map (fun e => e.1) := hid ▸ hnotin.2
    rw [List.map_append, List.map_cons, map_set_not_mem id c xs hxs,
      map_set_not_mem id c ys hys, if_pos (by simp [hid])]
    rw [List.filter_append, List.filter_cons, filter_ne_id_of_not_mem id xs hxs,
      filter_ne_id_of_not_mem id ys hys]
    rw [if_neg (by simp [hid])]
    exact List.perm_middle.trans (List.perm_append_singleton _ _).symm
  · rw [if_neg h]
    have hnotin : id ∉ s.map (fun e => e.1) := by
      intro hmem
      rcases List.mem_map.mp hmem with ⟨e, he, hkeq⟩
      have : s.any (fun e => e.1 == id) = true :=
        List.any_eq_true.mpr ⟨e, he, by simp [hkeq]⟩
      exact h this
    rw [filter_ne_id_of_not_mem id s hnotin]

theorem upsert_nodup (s : Store) (id : String) (c : Chunk)
    (hnd : (s.map (fun e => e.1)).Nodup) :
    ((upsert s id c).map (fun e => e.1)).Nodup := by
  rw [ids_upsert]
  by_cases h : s.any (fun e => e.1 == id)
  · rw [if_pos h]
    exact hnd
  · rw [if_neg h]
    have hnotin : id ∉ s.map (fun e => e.1) := by
      intro hmem
      rcases List.mem_map.mp hmem with ⟨e, he, hkeq⟩
      have : s.any (fun e => e.1 == id) = true :=
        List.any_eq_true.mpr ⟨e, he, by simp [hkeq]⟩
      exact h this
    simp [List.nodup_append, hnd, hnotin]

theorem filter_pid_upsertChunks (d : String) :
    ∀ (cs : List Chunk) (s : Store) (L : Store),
      (s.map (fun e => e.1)).Nodup →
      List.Perm (s.filter (fun e => e.2.page_id == d)) L →
      (∀ e ∈ L, e.1 ∉ cs.map chunkId) →
      (∀ c ∈ cs, c.page_id = d) →
      (cs.map chunkId).Nodup →
      List.Perm ((upsertChunks s cs).filter (fun e => e.2.page_id == d))
        (L ++ cs.map (fun c => (chunkId c, c))) := by
  intro cs
  induction cs with
  | nil =>
      intro s L hnd hF hL hpid hcnd
      simpa using hF
  | cons c rest ih =>
      intro s L hnd hF hL hpid hcnd
      have hcd : c.page_id = d := hpid c (List.mem_cons_self c rest)
      have h1 := (upsert_perm s (chunkId c) c hnd).filter (fun e => e.2.page_id == d)
      rw [List.filter_append] at h1
      have h2 : ([(chunkId c, c)] : Store).filter (fun e => e.2.page_id == d)
          = [(chunkId c, c)] := by
        simp [hcd]
      rw [h2] at h1
      have h3 : (s.filter (fun e => !(e.1 == chunkId c))).filter (fun e => e.2.page_id == d)
          = (s.filter (fun e => e.2.page_id == d)).filter (fun e => !(e.1 == chunkId c)) := by
        rw [List.filter_filter, List.filter_filter]
        congr 1
        funext e
        rw [Bool.and_comm]
      rw [h3] at h1
      have h5 : L.filter (fun e => !(e.1 == chunkId c)) = L := by
        rw [List.filter_eq_self]
        intro e he
        have hne : e.1 ≠ chunkId c := by
          intro heq
          exact hL e he (heq ▸ List.mem_cons_self (chunkId c) (rest.map chunkId))
        simp [hne]
      have h4 : List.Perm
          ((s.filter (fun e => e.2.page_id == d)).filter (fun e => !(e.1 == chunkId c))) L := by
        have := hF.filter (fun e => !(e.1 == chunkId c))
        rw [h5] at this
        exact this
      have hFstep : List.Perm
          ((upsert s (chunkId c) c).filter (fun e => e.2.page_id == d))
          (L ++ [(chunkId c, c)]) :=
        h1.trans (h4.append_right [(chunkId c, c)])
      have hnd' : ((upsert s (chunkId c) c).map (fun e => e.1)).Nodup :=
        upsert_nodup s (chunkId c) c hnd
      have hL' : ∀ e ∈ L ++ [(chunkId c, c)], e.1 ∉ rest.map chunkId := by
        intro e he
        rcases List.mem_append.mp he with he | he
        · intro hmem
          exact hL e he (List.mem_cons_of_mem _ hmem)
        · have : e = (chunkId c, c) := by simpa using he
          subst this
          exact (List.nodup_cons.mp hcnd).1
      have hpid' : ∀ c' ∈ rest, c'.page_id = d := fun c' hc' =>
        hpid c' (List.mem_cons_of_mem _ hc')
      have hres := ih (upsert s (chunkId c) c) (L ++ [(chunkId c, c)]) hnd' hFstep hL'
        hpid' (List.nodup_cons.mp hcnd).2
      rw [upsertChunks_cons]
      rw [List.map_cons]
      have hassoc : (L ++ [(chunkId c, c)]) ++ rest.map (fun c => (chunkId c, c))
          = L ++ (chunkId c, c) :: rest.map (fun c => (chunkId c, c)) := by
        rw [List.append_assoc, List.singleton_append]
      rw [hassoc] at hres
      exact hres

theorem split_foldl (splitter : String → List String) :
    ∀ (pages : List SrcPage) (acc : List Chunk),
      pages.foldl
          (fun acc page =>
            if isBlank page.content then acc
            else acc ++ add_metadata (splitter page.content) page.page_id page.title page.url)
          acc
        = acc ++ (pages.filter (fun p => !(isBlank p.content))).flatMap
            (fun p => add_metadata (splitter p.content) p.page_id p.title p.url) := by
  intro pages
  induction pages with
  | nil =>
      intro acc
      simp
  | cons p rest ih =>
      intro acc
      rw [List.foldl_cons, List.filter_cons]
      by_cases hb : isBlank p.content
      · rw [if_pos hb, if_neg (by simp [hb]), ih]
      · rw [if_neg hb, if_pos (by simp [hb]), ih, List.flatMap_cons, List.append_assoc]

theorem split_into_chunks_eq (splitter : String → List String) (pages : List SrcPage) :
    split_into_chunks splitter pages
      = (pages.filter (fun p => !(isBlank p.content))).flatMap
          (fun p => add_metadata (splitter p.content) p.page_id p.title p.url) := by
  unfold split_into_chunks
  rw [split_foldl]
  rfl

theorem add_metadata_page_id (cs : List String) (pid t u : String) :
    ∀ c ∈ add_metadata cs pid t u, c.page_id = pid := by
  intro c hc
  unfold add_metadata at hc
  simp only [List.mem_map] at hc
  rcases hc with ⟨ic, -, rfl⟩
  rfl

theorem add_metadata_total (cs : List String) (pid t u : String) :
    ∀ c ∈ add_metadata cs pid t u, c.total_chunks = cs.length := by
  intro c hc
  unfold add_metadata at hc
  simp only [List.mem_map] at hc
  rcases hc with ⟨ic, -, rfl⟩
  rfl

theorem add_metadata_length (cs : List String) (pid t u : String) :
    (add_metadata cs pid t u).length = cs.length := by
  simp [add_metadata]

theorem add_metadata_chunk_index (cs : List String) (pid t u : String) :
    (add_metadata cs pid t u).map (fun c => c.chunk_index) = List.range cs.length := by
  unfold add_metadata
  rw [List.map_map]
  have hfun : ((fun c : Chunk => c.chunk_index)
      ∘ fun ic : Nat × String => (⟨ic.2, pid, t, u, ic.1, cs.length⟩ : Chunk))
      = Prod.fst := rfl
  rw [hfun, List.enum_map_fst]

theorem add_metadata_chunkIds (cs : List String) (pid t u : String) :
    (add_metadata cs pid t u).map chunkId
      = (List.range cs.length).map (fun i => pid ++ "_chunk_" ++ toString i) := by
  unfold add_metadata
  rw [List.map_map]
  have hfun : (chunkId
      ∘ fun ic : Nat × String => (⟨ic.2, pid, t, u, ic.1, cs.length⟩ : Chunk))
      = (fun i => pid ++ "_chunk_" ++ toString i) ∘ Prod.fst := rfl
  rw [hfun, ← List.map_map, List.enum_map_fst]

theorem string_append_right_inj (s : String) {a b : String} (h : s ++ a = s ++ b) :
    a = b := by
  have hd := congrArg String.data h
  rw [String.data_append, String.data_append] at hd
  have hab := List.append_cancel_left hd
  cases a with
  | mk da =>
    cases b with
    | mk db => exact congrArg String.mk (by simpa using hab)

theorem add_foldl_store (bs : Nat) (cs : List Chunk) :
    ∀ (n : Nat) (acc : Store × Nat),
      ((List.range n).foldl
          (fun acc i =>
            let batch := (cs.drop (i * bs)).take bs
            (upsertChunks acc.1 batch, acc.2 + batch.length)) acc).1
        = upsertChunks acc.1
            (((List.range n).map (fun i => (cs.drop (i * bs)).take bs)).flatten) := by
  intro n
  induction n with
  | zero =>
      intro acc
      simp [upsertChunks]
  | succ n ih =>
      intro acc
      rw [List.range_succ, List.foldl_append, List.map_append, List.flatten_append,
        upsertChunks_append, ← ih acc]
      simp [upsertChunks_append, upsertChunks]

theorem add_new_vectors_store (splitter : String → List String) (store : Store)
    (pages : List SrcPage) (bs : Nat) (hbs : 0 < bs) :
    (add_new_vectors splitter store pages bs).1
      = upsertChunks store (split_into_chunks splitter pages) := by
  unfold add_new_vectors
  by_cases hp : pages.isEmpty
  · rw [if_pos hp]
    have hpe : pages = [] := List.isEmpty_iff.mp hp
    subst hpe
    simp [split_into_chunks, upsertChunks]
  · rw [if_neg hp]
    simp only []
    by_cases hc : (split_into_chunks splitter pages).isEmpty
    · rw [if_pos hc]
      have hce : split_into_chunks splitter pages = [] := List.isEmpty_iff.mp hc
      rw [hce]
      rfl
    · rw [if_neg hc]
      rw [add_foldl_store]
      congr 1
      exact join_slices bs hbs _ _ rfl

theorem update_process_store_of_changes (splitter : String → List String) (store : Store)
    (bp : List SrcPage) (sp : List (String × TrackedPage)) (bs : Nat) (force : Bool)
    (page : SrcPage) (ds : List String)
    (hch : identify_changes bp sp = ⟨[], [page], ds⟩) :
    (update_process splitter store bp sp bs force).1
      = (add_new_vectors splitter
          (delete_old_vectors store
            ((page.page_id :: ds).filter (fun pid => !(pid == "")))).1
          [page] bs).1 := by
  unfold update_process
  rw [hch]
  simp

/-- C7: when a document previously indexed with 5 chunks is re-indexed with 3
chunks within one `update_process` run (it sits in the modified bucket, so the
deletion phase removes every vector whose metadata page_id matches before the
insertion phase writes its new chunks), the final collection holds exactly 3
vectors for that document, whose chunk indices are exactly 0, 1, 2 — none at
index 3 or 4. -/
theorem C7_reindex_shrunk (splitter : String → List String) (store : Store)
    (bp : List SrcPage) (sp : List (String × TrackedPage)) (bs : Nat) (force : Bool)
    (page : SrcPage) (ds : List String)
    (hbs : 0 < bs)
    (hch : identify_changes bp sp = ⟨[], [page], ds⟩)
    (hid : page.page_id ≠ "")
    (hnb : isBlank page.content = false)
    (hsplit : (splitter page.content).length = 3)
    (hnd : (store.map (fun e => e.1)).Nodup)
    (_h5 : (store.filter (fun e => e.2.page_id == page.page_id)).length = 5) :
    ((update_process splitter store bp sp bs force).1.filter
        (fun e => e.2.page_id == page.page_id)).length = 3 ∧
    ∀ i : Nat,
      i ∈ ((update_process splitter store bp sp bs force).1.filter
        (fun e => e.2.page_id == page.page_id)).map (fun e => e.2.chunk_index)
        ↔ i < 3 := by
  have hst := update_process_store_of_changes splitter store bp sp bs force page ds hch
  have hadd := add_new_vectors_store splitter
    (delete_old_vectors store
      ((page.page_id :: ds).filter (fun pid => !(pid == "")))).1 [page] bs hbs
  have hsingle : split_into_chunks splitter [page]
      = add_metadata (splitter page.content) page.page_id page.title page.url := by
    rw [split_into_chunks_eq]
    simp [hnb]
  have hdmem : page.page_id ∈ (page.page_id :: ds).filter (fun pid => !(pid == "")) := by
    rw [List.mem_filter]
    exact ⟨List.mem_cons_self page.page_id ds, by simp [hid]⟩
  have hno : ∀ e ∈ (delete_old_vectors store
      ((page.page_id :: ds).filter (fun pid => !(pid == "")))).1,
      e.2.page_id ≠ page.page_id := by
    intro e he
    exact delete_foldl_no_pid page.page_id _ hdmem (store, 0) e he
  have hnd1 : ((delete_old_vectors store
      ((page.page_id :: ds).filter (fun pid => !(pid == "")))).1.map
        (fun e => e.1)).Nodup :=
    delete_foldl_nodup _ (store, 0) hnd
  have hF0 : (delete_old_vectors store
      ((page.page_id :: ds).filter (fun pid => !(pid == "")))).1.filter
        (fun e => e.2.page_id == page.page_id) = [] := by
    rw [List.filter_eq_nil_iff]
    intro e he
    simp [hno e he]
  have hcpid : ∀ c ∈ add_metadata (splitter page.content) page.page_id page.title page.url,
      c.page_id = page.page_id := add_metadata_page_id _ _ _ _
  have hrange3 : List.range ((splitter page.content).length) = [0, 1, 2] := by
    rw [hsplit]
    rfl
  have hcids : (add_metadata (splitter page.content) page.page_id page.title page.url).map
        chunkId
      = [page.page_id ++ "_chunk_" ++ toString 0, page.page_id ++ "_chunk_" ++ toString 1,
         page.page_id ++ "_chunk_" ++ toString 2] := by
    rw [add_metadata_chunkIds, hrange3]
    rfl
  have hcnd : ((add_metadata (splitter page.content) page.page_id page.title page.url).map
      chunkId).Nodup := by
    rw [hcids]
    have h01 : page.page_id ++ "_chunk_" ++ toString 0
        ≠ page.page_id ++ "_chunk_" ++ toString 1 := by
      intro h
      exact absurd (string_append_right_inj _ h) (by decide)
    have h02 : page.page_id ++ "_chunk_" ++ toString 0
        ≠ page.page_id ++ "_chunk_" ++ toString 2 := by
      intro h
      exact absurd (string_append_right_inj _ h) (by decide)
    have h12 : page.page_id ++ "_chunk_" ++ toString 1
        ≠ page.page_id ++ "_chunk_" ++ toString 2 := by
      intro h
      exact absurd (string_append_right_inj _ h) (by decide)
    simp [h01, h02, h12]
  have hperm := filter_pid_upsertChunks page.page_id
    (add_metadata (splitter page.content) page.page_id page.title page.url)
    (delete_old_vectors store
      ((page.page_id :: ds).filter (fun pid => !(pid == "")))).1 [] hnd1
    (by rw [hF0]) (fun e he => absurd he (List.not_mem_nil e)) hcpid hcnd
  rw [List.nil_append] at hperm
  have hfinal : (update_process splitter store bp sp bs force).1
      = upsertChunks
          (delete_old_vectors store
            ((page.page_id :: ds).filter (fun pid => !(pid == "")))).1
          (add_metadata (splitter page.content) page.page_id page.title page.url) := by
    rw [hst, hadd, hsingle]
  rw [hfinal]
  constructor
  · rw [hperm.length_eq, List.length_map, add_metadata_length, hsplit]
  · intro i
    rw [(hperm.map (fun e => e.2.chunk_index)).mem_iff]
    have hmapmap : ((add_metadata (splitter page.content) page.page_id page.title
          page.url).map (fun c => (chunkId c, c))).map (fun e => e.2.chunk_index)
        = (add_metadata (splitter page.content) page.page_id page.title page.url).map
            (fun c => c.chunk_index) := by
      rw [List.map_map]
      rfl
    rw [hmapmap, add_metadata_chunk_index, hsplit, List.mem_range]

/-- Witness for C7_reindex_shrunk at a concrete input. -/
theorem C7_witness :
    ((update_process (fun _ => ["x", "y", "z"]) c7store [c7page] c7tracked 100
        false).1.filter (fun e => e.2.page_id == c7page.page_id)).length = 3 ∧
    ∀ i : Nat,
      i ∈ ((update_process (fun _ => ["x", "y", "z"]) c7store [c7page] c7tracked 100
        false).1.filter (fun e => e.2.page_id == c7page.page_id)).map
          (fun e => e.2.chunk_index) ↔ i < 3 :=
  C7_reindex_shrunk (fun _ => ["x", "y", "z"]) c7store [c7page] c7tracked 100 false
    c7page [] (by decide) (by decide) (by decide) (by decide) (by decide) (by decide)
    (by decide)

/-- C10: a page whose content is empty or whitespace-only contributes no
chunks at all to `split_into_chunks` (removing it from the page list leaves
the output unchanged, so it yields no vector ids and is excluded from
embedding and indexing); a page with non-blank content contributes exactly
the block `add_metadata (splitter content) ...`, whose chunk_index values
are 0..n-1 contiguous and whose total_chunks is n, for n the number of
splitter outputs. -/
theorem C10_blank_and_indexing (splitter : String → List String) :
    (∀ (xs ys : List SrcPage) (p : SrcPage), isBlank p.content = true →
        split_into_chunks splitter (xs ++ p :: ys)
          = split_into_chunks splitter (xs ++ ys)) ∧
    (∀ (xs ys : List SrcPage) (p : SrcPage), isBlank p.content = false →
        split_into_chunks splitter (xs ++ p :: ys)
          = split_into_chunks splitter xs
            ++ add_metadata (splitter p.content) p.page_id p.title p.url
            ++ split_into_chunks splitter ys) ∧
    (∀ (cs : List String) (pid t u : String),
        (add_metadata cs pid t u).map (fun c => c.chunk_index)
            = List.range cs.length ∧
        ∀ c ∈ add_metadata cs pid t u, c.total_chunks = cs.length) := by
  refine ⟨?_, ?_, ?_⟩
  · intro xs ys p hb
    rw [split_into_chunks_eq, split_into_chunks_eq, List.filter_append,
      List.filter_append, List.filter_cons, if_neg (by simp [hb])]
  · intro xs ys p hb
    rw [split_into_chunks_eq, split_into_chunks_eq, split_into_chunks_eq,
      List.filter_append, List.filter_cons, if_pos (by simp [hb]),
      List.flatMap_append, List.flatMap_cons, List.append_assoc]
  · intro cs pid t u
    exact ⟨add_metadata_chunk_index cs pid t u, add_metadata_total cs pid t u⟩

/-- Witness for C10_blank_and_indexing at concrete inputs. -/
theorem C10_witness :
    (split_into_chunks (fun s => [s])
        ([] ++ (⟨"a", "t", "u", 1, "", " "⟩ : SrcPage) :: [])
      = split_into_chunks (fun s => [s]) ([] ++ [])) ∧
    (split_into_chunks (fun s => [s])
        ([] ++ (⟨"b", "t", "u", 1, "", "text"⟩ : SrcPage) :: [])
      = split_into_chunks (fun s => [s]) []
        ++ add_metadata ((fun s => [s]) (⟨"b", "t", "u", 1, "", "text"⟩ : SrcPage).content)
            (⟨"b", "t", "u", 1, "", "text"⟩ : SrcPage).page_id
            (⟨"b", "t", "u", 1, "", "text"⟩ : SrcPage).title
            (⟨"b", "t", "u", 1, "", "text"⟩ : SrcPage).url
        ++ split_into_chunks (fun s => [s]) []) ∧
    ((add_metadata ["x", "y"] "d" "t" "u").map (fun c => c.chunk_index)
        = List.range (["x", "y"] : List String).length ∧
      ∀ c ∈ add_metadata ["x", "y"] "d" "t" "u",
        c.total_chunks = (["x", "y"] : List String).length) :=
  ⟨(C10_blank_and_indexing (fun s => [s])).1 [] [] ⟨"a", "t", "u", 1, "", " "⟩
      (by decide),
   (C10_blank_and_indexing (fun s => [s])).2.1 [] [] ⟨"b", "t", "u", 1, "", "text"⟩
      (by decide),
   (C10_blank_and_indexing (fun s => [s])).2.2 ["x", "y"] "d" "t" "u"⟩
